import Mathlib

/-!
Verification of the passive-RTT correlation engine of pping-exporter.

The definitions below are a shallow embedding of src/pping-exporter.cpp.
Doubles are idealised as rationals, the two std::unordered_map tables are
association lists keyed by the same concatenated strings the program builds,
and a C++ call that can throw out of a map (flows.at on an absent key,
IPv4Address parsing of a non-IPv4 string) is modelled by returning none.
-/

namespace PPing

/-- Per-flow record; fields and default initialisers mirror class flowRec
(pping-exporter.cpp lines 84-106): last_tm 0, min 1e30, byte counters 0,
revFlow false. -/
structure flowRec where
  flowname : String
  last_tm : ℚ := 0
  min : ℚ := 10 ^ 30
  bytesSnt : ℚ := 0
  lstBytesSnt : ℚ := 0
  bytesDep : ℚ := 0
  revFlow : Bool := false
deriving DecidableEq, Repr

/-- TSval-table entry; mirrors class tsInfo (lines 108-117). -/
structure tsInfo where
  t : ℚ
  fBytes : ℚ
  dBytes : ℚ
deriving DecidableEq, Repr

/-- Association-list model of unordered_map lookup (map.at / map.count / map.find). -/
def lookupA {α : Type} : List (String × α) → String → Option α
  | [], _ => none
  | (k, v) :: rest, key => if k = key then some v else lookupA rest key

/-- Update the value stored under a key in place, as mutation through a pointer
obtained from the map does; a no-op when the key is absent. -/
def updateA {α : Type} (g : α → α) : List (String × α) → String → List (String × α)
  | [], _ => []
  | (k, v) :: rest, key =>
    if k = key then (k, g v) :: rest else (k, v) :: updateA g rest key

/-- addTS (lines 157-171): try_emplace into tsTbl; when the key already exists
the emplace fails and the new entry is discarded (deleted), leaving the stored
entry untouched. -/
def addTS (tbl : List (String × tsInfo)) (key : String) (ti : tsInfo) :
    List (String × tsInfo) :=
  match lookupA tbl key with
  | some _ => tbl
  | none => (key, ti) :: tbl

/-- getTStm (lines 188-196): tsTbl.at with std::out_of_range mapped to nullptr. -/
def getTStm (tbl : List (String × tsInfo)) (key : String) : Option tsInfo :=
  lookupA tbl key

/-- An IPv4Range as an inclusive pair of numeric bounds; ipRangesContains
(lines 221-229) folds range.contains over the configured local ranges. -/
def ipRangesContains (ranges : List (Nat × Nat)) (addr : Nat) : Bool :=
  ranges.any (fun r => decide (r.1 ≤ addr ∧ addr ≤ r.2))

/-- Dotted-quad rendering of a numeric IPv4 address (IPv4Address::to_string). -/
def ipv4Str (a : Nat) : String :=
  toString (a / 16777216 % 256) ++ "." ++ toString (a / 65536 % 256) ++ "." ++
    toString (a / 256 % 256) ++ "." ++ toString (a % 256)

/-- The network layer of a captured packet: IPv4, IPv6 (addresses already
rendered to strings by the capture library), or neither. -/
inductive NetLayer where
  | v4 (src dst : Nat)
  | v6 (src dst : String)
  | other
deriving DecidableEq, Repr

/-- Lines 255-266: extract the source/destination address strings; none when
the packet is neither IPv4 nor IPv6. -/
def netStrs : NetLayer → Option (String × String)
  | NetLayer.v4 s d => some (ipv4Str s, ipv4Str d)
  | NetLayer.v6 s d => some (s, d)
  | NetLayer.other => none

/-- The numeric IPv4 form of the destination used by the local-range check at
line 318; constructing IPv4Address from a non-IPv4 string throws, modelled as
none. -/
def dstV4 : NetLayer → Option Nat
  | NetLayer.v4 _ d => some d
  | _ => none

/-- Run parameters: the globals at lines 122-142.  maxFlows is the constant
10000 of line 126; tsvalMaxAge, flowMaxIdle and filtLocal are settable from
the command line. -/
structure Config where
  tsvalMaxAge : ℚ := 10
  flowMaxIdle : ℚ := 300
  maxFlows : Int := 10000
  filtLocal : Bool := true
  localRanges : List (Nat × Nat) := []
deriving Repr

/-- Parsed packet fields consumed by process_packet: the input contract of the
correlation engine. -/
structure Packet where
  isTCP : Bool := true
  hasTSopt : Bool := true
  tsval : Nat := 0
  tsecr : Nat := 0
  flagsSYN : Bool := false
  net : NetLayer := NetLayer.other
  sport : Nat := 0
  dport : Nat := 0
  size : Nat := 0
  tsSec : Int := 0
  tsUsec : Nat := 0
deriving DecidableEq, Repr

/-- The mutable process state: the two tables, the counters of lines 127-135
and the capture clock (offTm initially -1). -/
structure PState where
  flows : List (String × flowRec) := []
  tsTbl : List (String × tsInfo) := []
  flowCnt : Int := 0
  pktCnt : Int := 0
  not_tcp : Int := 0
  no_TS : Int := 0
  not_v4or6 : Int := 0
  uniDir : Int := 0
  offTm : Int := -1
  capTm : ℚ := 0
  startm : ℚ := 0
deriving DecidableEq, Repr

/-- Clock normalisation (lines 271-285): the first usable packet records
offTm = seconds and startm = capTm = microseconds * 1e-6; later packets get
capTm = (seconds - offTm) + microseconds * 1e-6. -/
def clockUpdate (s : PState) (pkt : Packet) : PState :=
  if s.offTm < 0 then
    { s with offTm := pkt.tsSec,
             startm := (pkt.tsUsec : ℚ) / 1000000,
             capTm := (pkt.tsUsec : ℚ) / 1000000 }
  else
    { s with capTm := ((pkt.tsSec - s.offTm : ℤ) : ℚ) + (pkt.tsUsec : ℚ) / 1000000 }

/-- One RTT sample as emitted at lines 338-361, together with the flow string
it is printed for and the TSval-table key that was matched. -/
structure Emission where
  flow : String
  matchKey : String
  rtt : ℚ
  minv : ℚ
  fBytes : ℚ
  dBytes : ℚ
  pBytes : ℚ
deriving DecidableEq, Repr

/-- Lines 316-362: the bi-directional tail of process_packet, from arr_fwd on.
fr is the record of fstr with last_tm already set.  Returns none where the C++
would throw: flows.at on an absent reverse key (line 336), or IPv4Address
parsing of a non-IPv4 destination inside the local-range check (line 318). -/
def procBidir (cfg : Config) (s : PState) (pkt : Packet) (fstr rstr : String)
    (fr : flowRec) : Option (PState × Option Emission) :=
  let arr_fwd := fr.bytesSnt + (pkt.size : ℚ)
  let s1 := { s with flows := updateA (fun r => { r with bytesSnt := arr_fwd }) s.flows fstr }
  let ins : Option Bool :=
    if cfg.filtLocal = false then some true
    else match dstV4 pkt.net with
      | some d => some (!(ipRangesContains cfg.localRanges d))
      | none => none
  match ins with
  | none => none
  | some b =>
    let inserted := addTS s1.tsTbl (fstr ++ "+" ++ toString pkt.tsval)
      ⟨s1.capTm, arr_fwd, fr.bytesDep⟩
    let s2 := { s1 with tsTbl := if b then inserted else s1.tsTbl }
    let mkey := rstr ++ "+" ++ toString pkt.tsecr
    match getTStm s2.tsTbl mkey with
    | none => some (s2, none)
    | some ti =>
      if ti.t > 0 then
        let rtt := s2.capTm - ti.t
        let minUpd := updateA (fun r => { r with min := rtt }) s2.flows fstr
        let s3 := { s2 with flows := if fr.min > rtt then minUpd else s2.flows }
        let minv := if fr.min > rtt then rtt else fr.min
        let pB := arr_fwd - fr.lstBytesSnt
        let s4 := { s3 with
          flows := updateA (fun r => { r with lstBytesSnt := arr_fwd }) s3.flows fstr }
        match lookupA s4.flows rstr with
        | none => none
        | some _ =>
          let s5 := { s4 with
            flows := updateA (fun r => { r with bytesDep := ti.fBytes }) s4.flows rstr }
          let s6 := { s5 with
            tsTbl := updateA (fun e => { e with t := -e.t }) s5.tsTbl mkey }
          some (s6, some ⟨fstr, mkey, rtt, minv, ti.fBytes, ti.dBytes, pB⟩)
      else some (s2, none)

/-- Lines 309-314: record last_tm, then the uni-directional check. -/
def procFlow (cfg : Config) (s : PState) (pkt : Packet) (fstr rstr : String) :
    Option (PState × Option Emission) :=
  let s1 := { s with flows := updateA (fun r => { r with last_tm := s.capTm }) s.flows fstr }
  match lookupA s1.flows fstr with
  | none => none
  | some fr =>
    if fr.revFlow = false then some ({ s1 with uniDir := s1.uniDir + 1 }, none)
    else procBidir cfg s1 pkt fstr rstr fr

/-- Lines 267-308: endpoint keys, clock normalisation and flow-table
get-or-create (including the maxFlows capacity check and the bi-directional
marking of a newly seen reverse flow). -/
def procUsable (cfg : Config) (s : PState) (pkt : Packet) (ipsstr ipdstr : String) :
    Option (PState × Option Emission) :=
  let srcstr := ipsstr ++ ":" ++ toString pkt.sport
  let dststr := ipdstr ++ ":" ++ toString pkt.dport
  let s1 := clockUpdate s pkt
  let fstr := srcstr ++ "+" ++ dststr
  let rstr := dststr ++ "+" ++ srcstr
  match lookupA s1.flows fstr with
  | none =>
    if s1.flowCnt > cfg.maxFlows then some (s1, none)
    else
      let s2 := { s1 with flows := (fstr, ({ flowname := fstr } : flowRec)) :: s1.flows,
                          flowCnt := s1.flowCnt + 1 }
      let s3 := if (lookupA s2.flows rstr).isSome then
          { s2 with flows := updateA (fun r => { r with revFlow := true })
                      (updateA (fun r => { r with revFlow := true }) s2.flows rstr) fstr }
        else s2
      procFlow cfg s3 pkt fstr rstr
  | some _ => procFlow cfg s1 pkt fstr rstr

/-- process_packet (lines 231-363): the classification prefix with its
diagnostic counters, then the usable path.  The zero-TSval / zero-ECR branch
at line 251 returns without touching any counter. -/
def process_packet (cfg : Config) (s : PState) (pkt : Packet) :
    Option (PState × Option Emission) :=
  let s0 := { s with pktCnt := s.pktCnt + 1 }
  if pkt.isTCP = false then some ({ s0 with not_tcp := s0.not_tcp + 1 }, none)
  else if pkt.hasTSopt = false then some ({ s0 with no_TS := s0.no_TS + 1 }, none)
  else if pkt.tsval = 0 ∨ (pkt.tsecr = 0 ∧ pkt.flagsSYN = false) then some (s0, none)
  else match netStrs pkt.net with
    | none => some ({ s0 with not_v4or6 := s0.not_v4or6 + 1 }, none)
    | some (ipsstr, ipdstr) => procUsable cfg s0 pkt ipsstr ipdstr

/-- cleanUp (lines 378-407): erase TSval entries older than tsvalMaxAge
(using the absolute value of the sign-encoded time) and flows idle longer
than flowMaxIdle, decrementing flowCnt per removed flow. -/
def cleanUp (cfg : Config) (n : ℚ) (s : PState) : PState :=
  let ts := s.tsTbl.filter (fun kv => !(decide (n - |kv.2.t| > cfg.tsvalMaxAge)))
  let keep := s.flows.filter (fun kv => !(decide (n - kv.2.last_tm > cfg.flowMaxIdle)))
  { s with tsTbl := ts, flows := keep,
           flowCnt := s.flowCnt - ((s.flows.length - keep.length : ℕ) : Int) }

/-- An input event: one captured packet, or one reaper sweep at reference
time n. -/
inductive Event where
  | pkt (p : Packet)
  | sweep (n : ℚ)
deriving Repr

/-- Run a list of events: packets through process_packet (propagating a C++
throw as none), sweeps through cleanUp, collecting the emissions in order. -/
def runEvents (cfg : Config) (s : PState) : List Event → Option (PState × List Emission)
  | [] => some (s, [])
  | Event.pkt p :: rest =>
    match process_packet cfg s p with
    | none => none
    | some (s1, em) =>
      match runEvents cfg s1 rest with
      | none => none
      | some (s2, ems) => some (s2, em.toList ++ ems)
  | Event.sweep n :: rest => runEvents cfg (cleanUp cfg n s) rest

/-- printnz (lines 433-435). -/
def printnz (v : Int) (s : String) : String :=
  if v > 0 then toString v ++ s else ""

/-- printSummary (lines 437-446): the periodic diagnostic line showing the
flow and packet counts and the four classification-rejection counters. -/
def printSummary (s : PState) : String :=
  toString s.flowCnt ++ " flows, " ++ toString s.pktCnt ++ " packets, " ++
    printnz s.no_TS (" no TS opt, ") ++ printnz s.uniDir (" uni-directional, ") ++
    printnz s.not_tcp (" not TCP, ") ++ printnz s.not_v4or6 (" not v4 or v6, ") ++ "\n"

/-- Ledger: the RTTs emitted for a flow since its current record was created;
auxiliary bookkeeping for stating the min-RTT invariant. -/
def ledgerStep (s : PState) (em : Option Emission) (led : String → List ℚ) :
    String → List ℚ :=
  fun f =>
    let base := if (lookupA s.flows f).isSome then led f else []
    match em with
    | some e => if e.flow = f then base ++ [e.rtt] else base
    | none => base

/-- runEvents instrumented with the per-record emission ledger. -/
def runLedger (cfg : Config) (s : PState) (led : String → List ℚ) :
    List Event → Option (PState × (String → List ℚ))
  | [] => some (s, led)
  | Event.pkt p :: rest =>
    match process_packet cfg s p with
    | none => none
    | some (s1, em) => runLedger cfg s1 (ledgerStep s em led) rest
  | Event.sweep n :: rest =>
    let s1 := cleanUp cfg n s
    runLedger cfg s1 (fun f => if (lookupA s1.flows f).isSome then led f else []) rest

/-- Fold of min over a list of RTTs, seeded with the 1e30 initial value of
flowRec.min. -/
def minList (l : List ℚ) : ℚ := l.foldr min (10 ^ 30)

/-- The min-RTT invariant: flow keys are unique and every live record's min
field equals the folded minimum of the RTTs emitted for it since the record
was created. -/
def MinInv (s : PState) (led : String → List ℚ) : Prop :=
  (s.flows.map Prod.fst).Nodup ∧
  ∀ f r, lookupA s.flows f = some r → r.min = minList (led f)

/-- A flow table holding n records with distinct keys, for exercising the
maxFlows capacity check at its compiled-in value. -/
def mkFlows : Nat → List (String × flowRec)
  | 0 => []
  | n + 1 =>
    (("z" ++ toString n), ({ flowname := "z" ++ toString n } : flowRec)) :: mkFlows n

/-- One parsed command-line option, as dispatched by the getopt switch
(lines 589-608). -/
inductive CliOpt where
  | iFlag (arg : String)
  | rFlag (arg : String)
  | fFlag (arg : String)
  | cFlag (n : Int)
  | sFlag (t : ℚ)
  | qFlag
  | vFlag
  | lFlag
  | mFlag
  | sumIntFlag (t : ℚ)
  | tsvalMaxAgeFlag (t : ℚ)
  | flowMaxIdleFlag (t : ℚ)
  | aFlag (addr : String)
  | lSubnetFlag (arg : String)
deriving DecidableEq, Repr

/-- The option-affected globals (lines 122-146 and 583-584) with their
initial values. -/
structure Opts where
  liveInp : Bool := false
  fname : String := ""
  filter : String := "tcp"
  maxPackets : Int := 0
  time_to_run : ℚ := 0
  sumInt : ℚ := 10
  filtLocal : Bool := true
  machineReadable : Bool := false
  tsvalMaxAge : ℚ := 10
  flowMaxIdle : ℚ := 300
  listenAddr : String := ":9876"
  strRanges : List String := []
deriving DecidableEq, Repr

/-- One iteration of the getopt switch (lines 591-607); numeric arguments are
taken already converted (atof). -/
def applyOpt (o : Opts) : CliOpt → Opts
  | CliOpt.iFlag a => { o with liveInp := true, fname := a }
  | CliOpt.rFlag a => { o with fname := a }
  | CliOpt.fFlag e => { o with filter := o.filter ++ " and (" ++ e ++ ")" }
  | CliOpt.cFlag n => { o with maxPackets := n }
  | CliOpt.sFlag t => { o with time_to_run := t }
  | CliOpt.qFlag => { o with sumInt := 0 }
  | CliOpt.vFlag => o
  | CliOpt.lFlag => { o with filtLocal := false }
  | CliOpt.mFlag => { o with machineReadable := true }
  | CliOpt.sumIntFlag t => { o with sumInt := t }
  | CliOpt.tsvalMaxAgeFlag t => { o with tsvalMaxAge := t }
  | CliOpt.flowMaxIdleFlag t => { o with flowMaxIdle := t }
  | CliOpt.aFlag a => { o with listenAddr := a }
  | CliOpt.lSubnetFlag r => { o with strRanges := o.strRanges ++ [r] }

/-- The option-parsing loop of main (lines 589-608). -/
def parseArgs (l : List CliOpt) : Opts := l.foldl applyOpt {}

/-- Line 616: main declares a fresh local listenAddr ":9876" that shadows the
global filled by -a, so StartPromHandler always receives ":9876" whatever
options were parsed. -/
def startPromHandlerAddr (_ : List CliOpt) : String := ":9876"

/-- Normalised capture time of a packet stamped (sec, usec) relative to
offTm = 0. -/
def normT (sec : Int) (usec : Nat) : ℚ := (sec : ℚ) + (usec : ℚ) / 1000000

/-- Configuration with local filtering disabled (the -l flag). -/
def cfgNF : Config := { filtLocal := false }

/-- Two flow records for A:1 <-> B:2 already established bi-directional. -/
def flowsAB : List (String × flowRec) :=
  [(("A:1+B:2"), ({ flowname := "A:1+B:2", revFlow := true } : flowRec)),
   (("B:2+A:1"), ({ flowname := "B:2+A:1", revFlow := true } : flowRec))]

/-- Initial state with both directions of the A/B flow known and the clock
baseline already recorded (offTm = 0). -/
def s0bidir : PState := { flows := flowsAB, flowCnt := 2, offTm := 0 }

/-- A forward packet A:1 -> B:2 carrying TSval V (ECR fixed to 1). -/
def fwdPkt (V : Nat) (sec : Int) (usec : Nat) : Packet :=
  { tsval := V, tsecr := 1, net := NetLayer.v6 ("A") ("B"), sport := 1, dport := 2,
    size := 60, tsSec := sec, tsUsec := usec }

/-- A reverse packet B:2 -> A:1 carrying TSval tsv and echoing ecr. -/
def revPkt (tsv ecr : Nat) (sec : Int) (usec : Nat) : Packet :=
  { tsval := tsv, tsecr := ecr, net := NetLayer.v6 ("B") ("A"), sport := 2, dport := 1,
    size := 40, tsSec := sec, tsUsec := usec }

/-- Forward TSval 100 recorded and matched at times 1 and 2, the resulting
entry consumed, swept away at reference time 20, then recreated by a second
forward packet with the same TSval at time 30 and matched again at 31. -/
def c1evs : List Event :=
  [Event.pkt (fwdPkt 100 1 0), Event.pkt (revPkt 1 100 2 0), Event.sweep 20,
   Event.pkt (fwdPkt 100 30 0), Event.pkt (revPkt 1 100 31 0)]

/-- One RTT emitted for flow B:2+A:1, both flow records evicted by a sweep at
reference time 400, then the flow recreated by a later reverse packet. -/
def c5evs : List Event :=
  [Event.pkt (fwdPkt 100 1 0), Event.pkt (revPkt 1 100 2 0), Event.sweep 400,
   Event.pkt (revPkt 3 9 405 0)]

/-- A TCP packet with a timestamp option whose TSval is zero. -/
def pZeroTS : Packet :=
  { tsval := 0, tsecr := 5, net := NetLayer.v6 ("A") ("B"),
    sport := 1, dport := 2, size := 60, tsSec := 1000, tsUsec := 0 }

/-- A configuration whose TSval retention outlives idle flows
(--tsvalMaxAge 100 --flowMaxIdle 1 -l). -/
def cfg9 : Config := { tsvalMaxAge := 100, flowMaxIdle := 1, filtLocal := false }

/-- The opening SYN A:1 -> B:2 of the c9 trace. -/
def q1 : Packet :=
  { tsval := 5, tsecr := 0, flagsSYN := true, net := NetLayer.v6 ("A") ("B"),
    sport := 1, dport := 2, size := 60, tsSec := 1000, tsUsec := 0 }

/-- The reply B:2 -> A:1 that makes both flows bi-directional. -/
def q2 : Packet :=
  { tsval := 6, tsecr := 5, net := NetLayer.v6 ("B") ("A"),
    sport := 2, dport := 1, size := 60, tsSec := 1000, tsUsec := 0 }

/-- A forward packet recording the entry A:1+B:2+100 at time 1. -/
def q3 : Packet :=
  { tsval := 100, tsecr := 6, net := NetLayer.v6 ("A") ("B"),
    sport := 1, dport := 2, size := 60, tsSec := 1001, tsUsec := 0 }

/-- A reverse packet at time 5 keeping only B:2+A:1 fresh. -/
def q4 : Packet :=
  { tsval := 7, tsecr := 50, net := NetLayer.v6 ("B") ("A"),
    sport := 2, dport := 1, size := 60, tsSec := 1005, tsUsec := 0 }

/-- The reverse packet whose ECR matches the surviving entry A:1+B:2+100
after the A:1+B:2 flow record has been evicted. -/
def q5 : Packet :=
  { tsval := 8, tsecr := 100, net := NetLayer.v6 ("B") ("A"),
    sport := 2, dport := 1, size := 60, tsSec := 1007, tsUsec := 0 }

/-- A state holding one uni-directional flow C:7+D:8. -/
def sUniW : PState :=
  { flows := [(("C:7+D:8"), ({ flowname := "C:7+D:8" } : flowRec))],
    flowCnt := 1, offTm := 0 }

/-- A usable packet on the uni-directional flow C:7+D:8. -/
def pUniW : Packet :=
  { tsval := 3, tsecr := 1, net := NetLayer.v6 ("C") ("D"),
    sport := 7, dport := 8, size := 60, tsSec := 2, tsUsec := 0 }

/-- The state sUniW after a non-TCP packet: only pktCnt and not_tcp move. -/
def sUniWafter : PState :=
  { flows := [(("C:7+D:8"), ({ flowname := "C:7+D:8" } : flowRec))],
    flowCnt := 1, pktCnt := 1, not_tcp := 1, offTm := 0 }

/-- A bi-directional state holding a consumed entry for A:1+B:2+100. -/
def sConsumedW : PState :=
  { flows := flowsAB, tsTbl := [(("A:1+B:2+100"), (⟨-1, 60, 0⟩ : tsInfo))],
    flowCnt := 2, offTm := 0 }

/-- The B:2+A:1 record after the reverse packet of the c1 witness. -/
def recBAafter : flowRec :=
  { flowname := "B:2+A:1", last_tm := 2, bytesSnt := 40, revFlow := true }

/-- sConsumedW after one reverse packet with ECR 100: the packet records its
own TSval but finds the matched entry consumed, so nothing is emitted. -/
def sConsumedWafter : PState :=
  { flows := [(("A:1+B:2"), ({ flowname := "A:1+B:2", revFlow := true } : flowRec)),
      (("B:2+A:1"), recBAafter)],
    tsTbl := [(("B:2+A:1+1"), (⟨2, 40, 0⟩ : tsInfo)),
      (("A:1+B:2+100"), (⟨-1, 60, 0⟩ : tsInfo))],
    flowCnt := 2, pktCnt := 1, offTm := 0, capTm := 2 }

/-- Both directions established, an unmatched forward entry AB+100 recorded at
time 1, the A-to-B flow record evicted by the sweep at reference time 6 while
the entry survives (tsvalMaxAge 100). -/
def c9pre : List Event :=
  [Event.pkt q1, Event.pkt q2, Event.pkt q3, Event.pkt q4, Event.sweep 6]

/-- c9pre followed by a reverse packet whose ECR matches the surviving entry
AB+100, driving the emission branch into flows.at on the evicted key. -/
def c9evs : List Event := c9pre ++ [Event.pkt q5]

/-- The state after the forward packet of the C2 round-trip trace: the entry
A:1+B:2+V is recorded at time normT a b; nothing matched. -/
def c2S1 (V : Nat) (a : Int) (b : Nat) : PState :=
  { flows := [(("A:1+B:2"),
      ({ flowname := "A:1+B:2", last_tm := normT a b, bytesSnt := 60,
         revFlow := true } : flowRec)),
      (("B:2+A:1"), ({ flowname := "B:2+A:1", revFlow := true } : flowRec))],
    tsTbl := [(("A:1+B:2+" ++ toString V), (⟨normT a b, 60, 0⟩ : tsInfo))],
    flowCnt := 2, pktCnt := 1, offTm := 0, capTm := normT a b, startm := 0 }

/-- The state after the matching reverse packet: the entry is consumed
(t negated) and the B:2+A:1 record carries the new minimum. -/
def c2S2 (V : Nat) (a : Int) (b : Nat) (c : Int) (d : Nat) : PState :=
  { flows := [(("A:1+B:2"),
      ({ flowname := "A:1+B:2", last_tm := normT a b, bytesSnt := 60,
         bytesDep := 60, revFlow := true } : flowRec)),
      (("B:2+A:1"),
      ({ flowname := "B:2+A:1", last_tm := normT c d,
         min := normT c d - normT a b, bytesSnt := 40, lstBytesSnt := 40,
         revFlow := true } : flowRec))],
    tsTbl := [(("B:2+A:1+1"), (⟨normT c d, 40, 0⟩ : tsInfo)),
      (("A:1+B:2+" ++ toString V), (⟨-(normT a b), 60, 0⟩ : tsInfo))],
    flowCnt := 2, pktCnt := 2, offTm := 0, capTm := normT c d, startm := 0 }

/-- The single RTT sample of the C2 round-trip trace. -/
def c2em (V : Nat) (a : Int) (b : Nat) (c : Int) (d : Nat) : Emission :=
  { flow := "B:2+A:1", matchKey := "A:1+B:2+" ++ toString V,
    rtt := normT c d - normT a b, minv := normT c d - normT a b,
    fBytes := 60, dBytes := 0, pBytes := 40 }

/-- The state after the duplicate-ECR reverse packet: the consumed entry is
found with a negative time and nothing further is emitted. -/
def c2S3 (V : Nat) (a : Int) (b : Nat) (c : Int) (d : Nat) (g : Int) (u : Nat) : PState :=
  { flows := [(("A:1+B:2"),
      ({ flowname := "A:1+B:2", last_tm := normT a b, bytesSnt := 60,
         bytesDep := 60, revFlow := true } : flowRec)),
      (("B:2+A:1"),
      ({ flowname := "B:2+A:1", last_tm := normT g u,
         min := normT c d - normT a b, bytesSnt := 80, lstBytesSnt := 40,
         revFlow := true } : flowRec))],
    tsTbl := [(("B:2+A:1+2"), (⟨normT g u, 80, 0⟩ : tsInfo)),
      (("B:2+A:1+1"), (⟨normT c d, 40, 0⟩ : tsInfo)),
      (("A:1+B:2+" ++ toString V), (⟨-(normT a b), 60, 0⟩ : tsInfo))],
    flowCnt := 2, pktCnt := 3, offTm := 0, capTm := normT g u, startm := 0 }

/-- The min field of an optional flow record, the absent case standing for
the 1e30 initialisation value. -/
def minOr (o : Option flowRec) : ℚ :=
  match o with
  | some r => r.min
  | none => 10 ^ 30

/-- How one step's emission adjusts the tracked minimum of flow f. -/
def emAdjust (em : Option Emission) (f : String) (base : ℚ) : ℚ :=
  match em with
  | some e => if e.flow = f then min base e.rtt else base
  | none => base

/-- The state reached from the empty state by one usable packet on a fresh
flow: the flow C:7+D:8 is created uni-directional and the clock is armed. -/
def c5WitState : PState :=
  { flows := [(("C:7+D:8"), ({ flowname := "C:7+D:8" } : flowRec))],
    tsTbl := [], flowCnt := 1, pktCnt := 1, uniDir := 1, offTm := 2,
    capTm := 0, startm := 0 }

/- ------------------------------------------------------------------ -/
/- Helper lemmas.                                                      -/
/- ------------------------------------------------------------------ -/

/- Rational arithmetic is kernel-computable but its core operations are
elaborator-irreducible; make them semireducible so that concrete runs of the
engine can be evaluated by decide. -/
attribute [local semireducible] Rat.add Rat.sub Rat.mul Rat.inv

theorem strNe_left (p q s t : String) (hl : p.data.length = q.data.length)
    (hne : p ≠ q) : p ++ s ≠ q ++ t := by
  intro h
  apply hne
  have hd : (p ++ s).data = (q ++ t).data := congrArg String.data h
  rw [String.data_append, String.data_append] at hd
  exact String.ext (List.append_inj hd hl).1

theorem strNe_of_suffix (p s t : String) (hne : s ≠ t) : p ++ s ≠ p ++ t := by
  intro h
  apply hne
  have hd : (p ++ s).data = (p ++ t).data := congrArg String.data h
  rw [String.data_append, String.data_append] at hd
  exact String.ext (List.append_cancel_left hd)

theorem lookupA_updateA {α : Type} (g : α → α) (tbl : List (String × α)) (k key : String) :
    lookupA (updateA g tbl k) key =
      if k = key then Option.map g (lookupA tbl key) else lookupA tbl key := by
  induction tbl with
  | nil => simp [lookupA, updateA]
  | cons kv rest ih =>
    obtain ⟨k0, v⟩ := kv
    by_cases h0 : k0 = k
    · subst h0
      by_cases h1 : k0 = key
      · subst h1; simp [lookupA, updateA]
      · simp [lookupA, updateA, h1]
    · by_cases h1 : k0 = key
      · subst h1
        have : ¬ (k = k0) := fun h => h0 h.symm
        simp [lookupA, updateA, h0, this]
      · simp [lookupA, updateA, h0, h1, ih]

theorem lookupA_addTS (tbl : List (String × tsInfo)) (k key : String) (ti e : tsInfo)
    (h : lookupA tbl key = some e) : lookupA (addTS tbl k ti) key = some e := by
  unfold addTS
  cases h2 : lookupA tbl k with
  | some v => exact h
  | none =>
    have hk : k ≠ key := by
      intro he; subst he; rw [h2] at h; exact Option.noConfusion h
    simp [lookupA, hk, h]

theorem mem_of_lookupA {α : Type} (tbl : List (String × α)) (k : String) (v : α)
    (h : lookupA tbl k = some v) : (k, v) ∈ tbl := by
  induction tbl with
  | nil => simp [lookupA] at h
  | cons kv rest ih =>
    obtain ⟨k0, v0⟩ := kv
    by_cases h0 : k0 = k
    · subst h0
      simp [lookupA] at h
      simp [h]
    · simp [lookupA, h0] at h
      exact List.mem_cons_of_mem _ (ih h)

theorem lookupA_of_mem {α : Type} (tbl : List (String × α)) (k : String) (v : α)
    (hnd : (tbl.map Prod.fst).Nodup) (hm : (k, v) ∈ tbl) : lookupA tbl k = some v := by
  induction tbl with
  | nil => simp at hm
  | cons kv rest ih =>
    obtain ⟨k0, v0⟩ := kv
    rcases List.mem_cons.mp hm with h | h
    · obtain ⟨h1, h2⟩ := Prod.mk.injEq .. ▸ h
      subst h1; subst h2
      simp [lookupA]
    · have hnd' := (List.nodup_cons.mp hnd)
      by_cases h0 : k0 = k
      · subst h0
        exact absurd (List.mem_map.mpr ⟨(k0, v), h, rfl⟩) hnd'.1
      · simp [lookupA, h0]
        exact ih hnd'.2 h

theorem lookupA_eq_none_iff {α : Type} (tbl : List (String × α)) (k : String) :
    lookupA tbl k = none ↔ k ∉ tbl.map Prod.fst := by
  induction tbl with
  | nil => simp [lookupA]
  | cons kv rest ih =>
    obtain ⟨k0, v0⟩ := kv
    by_cases h0 : k0 = k
    · subst h0; simp [lookupA]
    · have h0' : k ≠ k0 := fun h => h0 h.symm
      simp [lookupA, h0, h0', ih]

theorem updateA_length {α : Type} (g : α → α) (tbl : List (String × α)) (k : String) :
    (updateA g tbl k).length = tbl.length := by
  induction tbl with
  | nil => rfl
  | cons kv rest ih =>
    obtain ⟨k0, v0⟩ := kv
    by_cases h0 : k0 = k <;> simp [updateA, h0, ih]

theorem updateA_keys {α : Type} (g : α → α) (tbl : List (String × α)) (k : String) :
    (updateA g tbl k).map Prod.fst = tbl.map Prod.fst := by
  induction tbl with
  | nil => rfl
  | cons kv rest ih =>
    obtain ⟨k0, v0⟩ := kv
    by_cases h0 : k0 = k <;> simp [updateA, h0, ih]

theorem mkFlows_length (n : Nat) : (mkFlows n).length = n := by
  induction n with
  | zero => rfl
  | succ m ih => simp [mkFlows, ih]

theorem lookupA_mkFlows (n : Nat) (key : String) (h : key.data.head? ≠ some 'z') :
    lookupA (mkFlows n) key = none := by
  induction n with
  | zero => rfl
  | succ m ih =>
    have hz : ("z" ++ toString m) ≠ key := by
      intro he
      apply h
      rw [← he]
      rfl
    simp [mkFlows, lookupA, hz, ih]

theorem minList_nil : minList [] = 10 ^ 30 := rfl

theorem minList_append (l : List ℚ) (x : ℚ) :
    minList (l ++ [x]) = min (minList l) x := by
  induction l with
  | nil => simp [minList, min_comm]
  | cons a l ih =>
    simp only [List.cons_append, minList, List.foldr_cons] at *
    rw [ih, min_assoc]

theorem ite_gt_min (a b : ℚ) : (if a > b then b else a) = min a b := by
  rcases le_or_lt a b with h | h
  · rw [if_neg (not_lt.mpr h), min_eq_left h]
  · rw [if_pos h, min_eq_right h.le]

@[simp] theorem clockUpdate_flows (s : PState) (p : Packet) :
    (clockUpdate s p).flows = s.flows := by
  rw [clockUpdate]; split <;> rfl

@[simp] theorem clockUpdate_tsTbl (s : PState) (p : Packet) :
    (clockUpdate s p).tsTbl = s.tsTbl := by
  rw [clockUpdate]; split <;> rfl

@[simp] theorem clockUpdate_flowCnt (s : PState) (p : Packet) :
    (clockUpdate s p).flowCnt = s.flowCnt := by
  rw [clockUpdate]; split <;> rfl

@[simp] theorem clockUpdate_pktCnt (s : PState) (p : Packet) :
    (clockUpdate s p).pktCnt = s.pktCnt := by
  rw [clockUpdate]; split <;> rfl

@[simp] theorem clockUpdate_uniDir (s : PState) (p : Packet) :
    (clockUpdate s p).uniDir = s.uniDir := by
  rw [clockUpdate]; split <;> rfl

@[simp] theorem clockUpdate_not_tcp (s : PState) (p : Packet) :
    (clockUpdate s p).not_tcp = s.not_tcp := by
  rw [clockUpdate]; split <;> rfl

@[simp] theorem clockUpdate_no_TS (s : PState) (p : Packet) :
    (clockUpdate s p).no_TS = s.no_TS := by
  rw [clockUpdate]; split <;> rfl

@[simp] theorem clockUpdate_not_v4or6 (s : PState) (p : Packet) :
    (clockUpdate s p).not_v4or6 = s.not_v4or6 := by
  rw [clockUpdate]; split <;> rfl

theorem bidir_flows_shape (cfg : Config) (s : PState) (pkt : Packet) (fstr rstr : String)
    (fr : flowRec) (s' : PState) (em : Option Emission)
    (h : procBidir cfg s pkt fstr rstr fr = some (s', em)) :
    s'.flows.map Prod.fst = s.flows.map Prod.fst ∧ s'.flowCnt = s.flowCnt := by
  simp only [procBidir] at h
  repeat' split at h
  all_goals
    first
    | exact Option.noConfusion h
    | (simp only [Option.some.injEq, Prod.mk.injEq] at h
       obtain ⟨h1, h2⟩ := h
       subst h1
       simp [updateA_keys])

theorem flow_flows_shape (cfg : Config) (s : PState) (pkt : Packet) (fstr rstr : String)
    (s' : PState) (em : Option Emission)
    (h : procFlow cfg s pkt fstr rstr = some (s', em)) :
    s'.flows.map Prod.fst = s.flows.map Prod.fst ∧ s'.flowCnt = s.flowCnt := by
  simp only [procFlow] at h
  repeat' split at h
  all_goals
    first
    | exact Option.noConfusion h
    | (simp only [Option.some.injEq, Prod.mk.injEq] at h
       obtain ⟨h1, h2⟩ := h
       subst h1
       simp [updateA_keys])
    | (obtain ⟨h1, h2⟩ := bidir_flows_shape _ _ _ _ _ _ _ _ h
       rw [h1, h2]
       simp [updateA_keys])

theorem usable_flows_shape (cfg : Config) (s : PState) (pkt : Packet) (ipsstr ipdstr : String)
    (s' : PState) (em : Option Emission)
    (h : procUsable cfg s pkt ipsstr ipdstr = some (s', em)) :
    (s'.flows.map Prod.fst = s.flows.map Prod.fst ∧ s'.flowCnt = s.flowCnt) ∨
    (∃ fstr, lookupA s.flows fstr = none ∧ ¬ s.flowCnt > cfg.maxFlows ∧
      s'.flows.map Prod.fst = fstr :: s.flows.map Prod.fst ∧ s'.flowCnt = s.flowCnt + 1) := by
  simp only [procUsable] at h
  split at h
  · -- creation branch: lookupA (clockUpdate s pkt).flows fstr = none
    rename_i hnone
    split at h
    · -- capacity drop
      left
      simp only [Option.some.injEq, Prod.mk.injEq] at h
      obtain ⟨h1, h2⟩ := h
      subst h1
      simp
    · -- created
      rename_i hcap
      right
      refine ⟨_, by simpa using hnone, by simpa using hcap, ?_⟩
      split at h
      · obtain ⟨h1, h2⟩ := flow_flows_shape _ _ _ _ _ _ _ h
        rw [h1, h2]
        simp [updateA_keys]
      · obtain ⟨h1, h2⟩ := flow_flows_shape _ _ _ _ _ _ _ h
        rw [h1, h2]
        simp
  · -- existing flow
    left
    obtain ⟨h1, h2⟩ := flow_flows_shape _ _ _ _ _ _ _ h
    rw [h1, h2]
    simp

theorem step_flows_shape (cfg : Config) (s : PState) (p : Packet)
    (s' : PState) (em : Option Emission)
    (h : process_packet cfg s p = some (s', em)) :
    (s'.flows.map Prod.fst = s.flows.map Prod.fst ∧ s'.flowCnt = s.flowCnt) ∨
    (∃ fstr, lookupA s.flows fstr = none ∧ ¬ s.flowCnt > cfg.maxFlows ∧
      s'.flows.map Prod.fst = fstr :: s.flows.map Prod.fst ∧ s'.flowCnt = s.flowCnt + 1) := by
  simp only [process_packet] at h
  repeat' split at h
  all_goals
    first
    | (left
       simp only [Option.some.injEq, Prod.mk.injEq] at h
       obtain ⟨h1, h2⟩ := h
       subst h1
       simp)
    | (rcases usable_flows_shape _ _ _ _ _ _ _ h with ⟨h1, h2⟩ | ⟨fstr, hn, hc, h1, h2⟩
       · left
         rw [h1, h2]
         simp
       · right
         exact ⟨fstr, by simpa using hn, by simpa using hc, by simpa using h1,
           by simpa using h2⟩)

theorem lookupA_addTS_ite (b : Bool) (tbl : List (String × tsInfo)) (kf K : String)
    (ti e : tsInfo) (h : lookupA tbl K = some e) :
    lookupA (if b = true then addTS tbl kf ti else tbl) K = some e := by
  split
  · exact lookupA_addTS tbl kf K ti e h
  · exact h

theorem bidir_consumed (cfg : Config) (s : PState) (pkt : Packet) (fstr rstr : String)
    (fr : flowRec) (s' : PState) (em : Option Emission) (K : String) (e : tsInfo)
    (h : procBidir cfg s pkt fstr rstr fr = some (s', em))
    (hK : lookupA s.tsTbl K = some e) (ht : e.t < 0) :
    lookupA s'.tsTbl K = some e ∧ ∀ x, em = some x → x.matchKey ≠ K := by
  simp only [procBidir] at h
  split at h
  · exact Option.noConfusion h
  rename_i b heqins
  split at h
  · rename_i heqnone
    simp only [Option.some.injEq, Prod.mk.injEq] at h
    obtain ⟨h1, h2⟩ := h
    subst h1
    subst h2
    exact ⟨lookupA_addTS_ite _ _ _ _ _ _ hK, fun x hx => Option.noConfusion hx⟩
  rename_i ti heqti
  by_cases hgt : ti.t > 0
  · rw [if_pos hgt] at h
    split at h
    · exact Option.noConfusion h
    rename_i vfr heqfr
    simp only [Option.some.injEq, Prod.mk.injEq] at h
    obtain ⟨h1, h2⟩ := h
    subst h1
    subst h2
    have hK2 : lookupA (if b = true then addTS s.tsTbl (fstr ++ "+" ++ toString pkt.tsval)
        ⟨s.capTm, fr.bytesSnt + (pkt.size : ℚ), fr.bytesDep⟩ else s.tsTbl) K = some e :=
      lookupA_addTS_ite _ _ _ _ _ _ hK
    have hne : (rstr ++ "+" ++ toString pkt.tsecr) ≠ K := by
      intro hk
      rw [hk, getTStm, hK2] at heqti
      obtain rfl : e = ti := Option.some.inj heqti
      exact absurd hgt (not_lt.mpr ht.le)
    refine ⟨?_, ?_⟩
    · rw [lookupA_updateA, if_neg hne]
      exact hK2
    · intro x hx
      obtain rfl := Option.some.inj hx
      exact hne
  · rw [if_neg hgt] at h
    simp only [Option.some.injEq, Prod.mk.injEq] at h
    obtain ⟨h1, h2⟩ := h
    subst h1
    subst h2
    exact ⟨lookupA_addTS_ite _ _ _ _ _ _ hK, fun x hx => Option.noConfusion hx⟩

theorem flow_consumed (cfg : Config) (s : PState) (pkt : Packet) (fstr rstr : String)
    (s' : PState) (em : Option Emission) (K : String) (e : tsInfo)
    (h : procFlow cfg s pkt fstr rstr = some (s', em))
    (hK : lookupA s.tsTbl K = some e) (ht : e.t < 0) :
    lookupA s'.tsTbl K = some e ∧ ∀ x, em = some x → x.matchKey ≠ K := by
  simp only [procFlow] at h
  split at h
  · exact Option.noConfusion h
  rename_i fr hfr
  split at h
  · simp only [Option.some.injEq, Prod.mk.injEq] at h
    obtain ⟨h1, h2⟩ := h
    subst h1
    subst h2
    exact ⟨hK, fun x hx => Option.noConfusion hx⟩
  · exact bidir_consumed _ _ _ _ _ _ _ _ _ _ h hK ht

theorem usable_consumed (cfg : Config) (s : PState) (pkt : Packet) (ipsstr ipdstr : String)
    (s' : PState) (em : Option Emission) (K : String) (e : tsInfo)
    (h : procUsable cfg s pkt ipsstr ipdstr = some (s', em))
    (hK : lookupA s.tsTbl K = some e) (ht : e.t < 0) :
    lookupA s'.tsTbl K = some e ∧ ∀ x, em = some x → x.matchKey ≠ K := by
  simp only [procUsable] at h
  split at h
  · split at h
    · simp only [Option.some.injEq, Prod.mk.injEq] at h
      obtain ⟨h1, h2⟩ := h
      subst h1
      subst h2
      exact ⟨by simpa using hK, fun x hx => Option.noConfusion hx⟩
    · split at h
      · exact flow_consumed _ _ _ _ _ _ _ _ _ h (by simpa using hK) ht
      · exact flow_consumed _ _ _ _ _ _ _ _ _ h (by simpa using hK) ht
  · exact flow_consumed _ _ _ _ _ _ _ _ _ h (by simpa using hK) ht

theorem step_consumed (cfg : Config) (s : PState) (p : Packet)
    (s' : PState) (em : Option Emission) (K : String) (e : tsInfo)
    (h : process_packet cfg s p = some (s', em))
    (hK : lookupA s.tsTbl K = some e) (ht : e.t < 0) :
    lookupA s'.tsTbl K = some e ∧ ∀ x, em = some x → x.matchKey ≠ K := by
  simp only [process_packet] at h
  repeat' split at h
  all_goals first
    | exact Option.noConfusion h
    | (simp only [Option.some.injEq, Prod.mk.injEq] at h
       obtain ⟨h1, h2⟩ := h
       subst h1
       subst h2
       exact ⟨hK, fun x hx => Option.noConfusion hx⟩)
    | exact usable_consumed _ _ _ _ _ _ _ _ _ h hK ht

theorem created_unidir (cfg : Config) (s : PState) (p : Packet) (ipsstr ipdstr : String)
    (h1 : p.isTCP = true) (h2 : p.hasTSopt = true)
    (h3 : ¬(p.tsval = 0 ∨ (p.tsecr = 0 ∧ p.flagsSYN = false)))
    (hnet : netStrs p.net = some (ipsstr, ipdstr))
    (hfs : lookupA s.flows
      (ipsstr ++ ":" ++ toString p.sport ++ "+" ++ (ipdstr ++ ":" ++ toString p.dport)) = none)
    (hcap : ¬ s.flowCnt > cfg.maxFlows)
    (hrs : lookupA s.flows
      (ipdstr ++ ":" ++ toString p.dport ++ "+" ++ (ipsstr ++ ":" ++ toString p.sport)) = none)
    (hne : (ipsstr ++ ":" ++ toString p.sport ++ "+" ++ (ipdstr ++ ":" ++ toString p.dport))
      ≠ (ipdstr ++ ":" ++ toString p.dport ++ "+" ++ (ipsstr ++ ":" ++ toString p.sport))) :
    process_packet cfg s p = some
      ({ clockUpdate { s with pktCnt := s.pktCnt + 1 } p with
         flows := updateA (fun r =>
             { r with last_tm := (clockUpdate { s with pktCnt := s.pktCnt + 1 } p).capTm })
           (((ipsstr ++ ":" ++ toString p.sport ++ "+" ++ (ipdstr ++ ":" ++ toString p.dport)),
             ({ flowname :=
                 ipsstr ++ ":" ++ toString p.sport ++ "+" ++ (ipdstr ++ ":" ++ toString p.dport) }
               : flowRec)) :: s.flows)
           (ipsstr ++ ":" ++ toString p.sport ++ "+" ++ (ipdstr ++ ":" ++ toString p.dport)),
         flowCnt := s.flowCnt + 1,
         uniDir := s.uniDir + 1 }, none) := by
  have n1 : ¬(p.isTCP = false) := by simp [h1]
  have n2 : ¬(p.hasTSopt = false) := by simp [h2]
  simp only [process_packet]
  rw [if_neg n1, if_neg n2, if_neg h3, hnet]
  have hfs' : lookupA (clockUpdate { s with pktCnt := s.pktCnt + 1 } p).flows
      (ipsstr ++ ":" ++ toString p.sport ++ "+" ++ (ipdstr ++ ":" ++ toString p.dport))
        = none := by simpa using hfs
  have hcap' : ¬ (clockUpdate { s with pktCnt := s.pktCnt + 1 } p).flowCnt > cfg.maxFlows := by
    simpa using hcap
  simp only [procUsable, hfs', if_neg hcap']
  rw [lookupA, if_neg hne, show (lookupA (clockUpdate { s with pktCnt := s.pktCnt + 1 } p).flows
      (ipdstr ++ ":" ++ toString p.dport ++ "+" ++ (ipsstr ++ ":" ++ toString p.sport))) = none
    from by simpa using hrs]
  simp only [Option.isSome_none, Bool.false_eq_true, if_false, if_neg]
  simp only [procFlow, lookupA_updateA, if_pos rfl, lookupA, Option.map_some]
  simp


theorem minOr_updateA (g : flowRec → flowRec) (tbl : List (String × flowRec)) (k f : String)
    (hg : ∀ r, (g r).min = r.min) :
    minOr (lookupA (updateA g tbl k) f) = minOr (lookupA tbl f) := by
  rw [lookupA_updateA]
  split
  · cases hx : lookupA tbl f <;> simp [minOr, hg]
  · rfl

theorem minOr_upd_bytesSnt (x : ℚ) (tbl : List (String × flowRec)) (k f : String) :
    minOr (lookupA (updateA (fun r => { r with bytesSnt := x }) tbl k) f)
      = minOr (lookupA tbl f) := minOr_updateA _ _ _ _ (fun _ => rfl)

theorem minOr_upd_lstBytesSnt (x : ℚ) (tbl : List (String × flowRec)) (k f : String) :
    minOr (lookupA (updateA (fun r => { r with lstBytesSnt := x }) tbl k) f)
      = minOr (lookupA tbl f) := minOr_updateA _ _ _ _ (fun _ => rfl)

theorem minOr_upd_bytesDep (x : ℚ) (tbl : List (String × flowRec)) (k f : String) :
    minOr (lookupA (updateA (fun r => { r with bytesDep := x }) tbl k) f)
      = minOr (lookupA tbl f) := minOr_updateA _ _ _ _ (fun _ => rfl)

theorem minOr_upd_last_tm (x : ℚ) (tbl : List (String × flowRec)) (k f : String) :
    minOr (lookupA (updateA (fun r => { r with last_tm := x }) tbl k) f)
      = minOr (lookupA tbl f) := minOr_updateA _ _ _ _ (fun _ => rfl)

theorem minOr_upd_revFlow (x : Bool) (tbl : List (String × flowRec)) (k f : String) :
    minOr (lookupA (updateA (fun r => { r with revFlow := x }) tbl k) f)
      = minOr (lookupA tbl f) := minOr_updateA _ _ _ _ (fun _ => rfl)

theorem minOr_cons_new (k : String) (r : flowRec) (tbl : List (String × flowRec))
    (hr : r.min = 10 ^ 30) (hnone : lookupA tbl k = none) (f : String) :
    minOr (lookupA ((k, r) :: tbl) f) = minOr (lookupA tbl f) := by
  by_cases hk : k = f
  · subst hk
    simp [lookupA, minOr, hr, hnone]
  · simp [lookupA, hk]

theorem bidir_min (cfg : Config) (s : PState) (pkt : Packet) (fstr rstr : String)
    (fr : flowRec) (s' : PState) (em : Option Emission)
    (hfr : lookupA s.flows fstr = some fr)
    (h : procBidir cfg s pkt fstr rstr fr = some (s', em)) (f : String) :
    minOr (lookupA s'.flows f) = emAdjust em f (minOr (lookupA s.flows f)) := by
  simp only [procBidir] at h
  split at h
  · exact Option.noConfusion h
  rename_i b heqins
  split at h
  · rename_i heqnone
    simp only [Option.some.injEq, Prod.mk.injEq] at h
    obtain ⟨h1, h2⟩ := h
    subst h1
    subst h2
    simp [minOr_upd_bytesSnt, emAdjust]
  rename_i ti heqti
  by_cases hgt : ti.t > 0
  · rw [if_pos hgt] at h
    split at h
    · exact Option.noConfusion h
    rename_i vfr heqfr
    simp only [Option.some.injEq, Prod.mk.injEq] at h
    obtain ⟨h1, h2⟩ := h
    subst h1
    subst h2
    simp only [emAdjust]
    by_cases hf : fstr = f
    · subst hf
      rw [if_pos rfl]
      simp only [minOr_upd_bytesDep, minOr_upd_lstBytesSnt]
      split
      · rename_i hmin
        rw [lookupA_updateA, if_pos rfl, lookupA_updateA, if_pos rfl, hfr]
        simp [minOr, min_eq_right hmin.le]
      · rename_i hmin
        rw [lookupA_updateA, if_pos rfl, hfr]
        simp [minOr, min_eq_left (not_lt.mp hmin)]
    · rw [if_neg hf]
      simp only [minOr_upd_bytesDep, minOr_upd_lstBytesSnt]
      split
      · rw [lookupA_updateA, if_neg hf]
        simp only [minOr_upd_bytesSnt]
      · simp only [minOr_upd_bytesSnt]
  · rw [if_neg hgt] at h
    simp only [Option.some.injEq, Prod.mk.injEq] at h
    obtain ⟨h1, h2⟩ := h
    subst h1
    subst h2
    simp [minOr_upd_bytesSnt, emAdjust]

theorem flow_min (cfg : Config) (s : PState) (pkt : Packet) (fstr rstr : String)
    (s' : PState) (em : Option Emission)
    (h : procFlow cfg s pkt fstr rstr = some (s', em)) (f : String) :
    minOr (lookupA s'.flows f) = emAdjust em f (minOr (lookupA s.flows f)) := by
  simp only [procFlow] at h
  split at h
  · exact Option.noConfusion h
  rename_i fr hfrl
  split at h
  · simp only [Option.some.injEq, Prod.mk.injEq] at h
    obtain ⟨h1, h2⟩ := h
    subst h1
    subst h2
    simp [minOr_upd_last_tm, emAdjust]
  · have hb := bidir_min _ _ _ _ _ fr s' em hfrl h f
    simpa [minOr_upd_last_tm] using hb

theorem usable_min (cfg : Config) (s : PState) (pkt : Packet) (ipsstr ipdstr : String)
    (s' : PState) (em : Option Emission)
    (h : procUsable cfg s pkt ipsstr ipdstr = some (s', em)) (f : String) :
    minOr (lookupA s'.flows f) = emAdjust em f (minOr (lookupA s.flows f)) := by
  simp only [procUsable] at h
  split at h
  · rename_i hnone
    have hnone' : lookupA s.flows
        (ipsstr ++ ":" ++ toString pkt.sport ++ "+" ++ (ipdstr ++ ":" ++ toString pkt.dport))
        = none := by simpa using hnone
    have hcons := minOr_cons_new
      (ipsstr ++ ":" ++ toString pkt.sport ++ "+" ++ (ipdstr ++ ":" ++ toString pkt.dport))
      ({ flowname := ipsstr ++ ":" ++ toString pkt.sport ++ "+"
          ++ (ipdstr ++ ":" ++ toString pkt.dport) } : flowRec)
      s.flows rfl hnone'
    split at h
    · simp only [Option.some.injEq, Prod.mk.injEq] at h
      obtain ⟨h1, h2⟩ := h
      subst h1
      subst h2
      simp [emAdjust]
    · split at h
      · have hf := flow_min _ _ _ _ _ _ _ h f
        simpa [minOr_upd_revFlow, hcons] using hf
      · have hf := flow_min _ _ _ _ _ _ _ h f
        simpa [hcons] using hf
  · have hf := flow_min _ _ _ _ _ _ _ h f
    simpa using hf

theorem step_min (cfg : Config) (s : PState) (p : Packet)
    (s' : PState) (em : Option Emission)
    (h : process_packet cfg s p = some (s', em)) (f : String) :
    minOr (lookupA s'.flows f) = emAdjust em f (minOr (lookupA s.flows f)) := by
  simp only [process_packet] at h
  repeat' split at h
  all_goals first
    | exact Option.noConfusion h
    | (simp only [Option.some.injEq, Prod.mk.injEq] at h
       obtain ⟨h1, h2⟩ := h
       subst h1
       subst h2
       simp [emAdjust])
    | (have hu := usable_min _ _ _ _ _ _ _ h f
       simpa using hu)

/- ------------------------------------------------------------------ -/
/- Claim theorems.                                                     -/
/- ------------------------------------------------------------------ -/

/-- C6: after cleanUp(now), the TSval table contains exactly the entries of
the old table whose age now - |t| is at most tsvalMaxAge; each surviving
entry is unchanged, and every entry with now - |t| > tsvalMaxAge (matched or
not) is gone. -/
theorem c6_tsval_sweep (cfg : Config) (n : ℚ) (s : PState) (k : String) (e : tsInfo) :
    (k, e) ∈ (cleanUp cfg n s).tsTbl ↔ (k, e) ∈ s.tsTbl ∧ n - |e.t| ≤ cfg.tsvalMaxAge := by
  simp [cleanUp, List.mem_filter, not_lt]

/-- C7: on the first usable packet (offTm still negative) the clock normalizer
records offTm = seconds and returns microseconds * 1e-6; on every later packet
it returns (seconds - offTm) + microseconds * 1e-6; in both cases the absolute
wall-clock time is recoverable as offTm + normalized time. -/
theorem c7_clock_normalizer (s : PState) (p : Packet) :
    (s.offTm < 0 →
      (clockUpdate s p).offTm = p.tsSec ∧
      (clockUpdate s p).capTm = (p.tsUsec : ℚ) / 1000000 ∧
      (clockUpdate s p).startm = (p.tsUsec : ℚ) / 1000000) ∧
    (0 ≤ s.offTm →
      (clockUpdate s p).capTm
          = ((p.tsSec : ℚ) - (s.offTm : ℚ)) + (p.tsUsec : ℚ) / 1000000 ∧
      (clockUpdate s p).offTm = s.offTm) ∧
    (((clockUpdate s p).offTm : ℚ) + (clockUpdate s p).capTm
        = (p.tsSec : ℚ) + (p.tsUsec : ℚ) / 1000000) := by
  refine ⟨fun h => ?_, fun h => ?_, ?_⟩
  · simp [clockUpdate, h]
  · rw [clockUpdate, if_neg (by omega)]
    constructor
    · push_cast
      ring
    · rfl
  · by_cases h : s.offTm < 0
    · simp [clockUpdate, h]
    · rw [clockUpdate, if_neg h]
      push_cast
      ring

/-- Witness for c7_clock_normalizer at a first packet (offTm = -1) and at a
subsequent packet (offTm = 3), both stamped (5 s, 250000 us). -/
theorem c7_clock_normalizer_witness :
    (clockUpdate ({} : PState) ({ tsSec := 5, tsUsec := 250000 } : Packet)).offTm = 5 ∧
    (clockUpdate ({} : PState) ({ tsSec := 5, tsUsec := 250000 } : Packet)).capTm = 1 / 4 ∧
    (clockUpdate ({ offTm := 3 } : PState) ({ tsSec := 5, tsUsec := 250000 } : Packet)).capTm
      = 2 + 1 / 4 := by
  have h1 := c7_clock_normalizer ({} : PState) ({ tsSec := 5, tsUsec := 250000 } : Packet)
  have h2 := c7_clock_normalizer ({ offTm := 3 } : PState)
      ({ tsSec := 5, tsUsec := 250000 } : Packet)
  refine ⟨(h1.1 (by decide)).1, ?_, ?_⟩
  · rw [(h1.1 (by decide)).2.1]
    norm_num
  · rw [(h2.2.1 (by decide)).1]
    norm_num

/-- C10 (code bug): the -a option is parsed into listenAddr, but the local
redeclaration at line 616 shadows it, so the metrics handler is always started
on ":9876" even when -a supplies a different address. -/
theorem c10_listen_addr_shadowed :
    (parseArgs [CliOpt.aFlag (":1234")]).listenAddr = ":1234" ∧
    startPromHandlerAddr [CliOpt.aFlag (":1234")] = ":9876" ∧
    (":1234" : String) ≠ ":9876" := by
  refine ⟨rfl, rfl, by decide⟩

/-- C8 counterexample: a TCP packet with a timestamp option but TSval = 0 is
discarded at line 251 without touching any of the four rejection counters
surfaced by printSummary, and without creating any flow or TSval state; only
the packet count moves. -/
theorem c8_zero_tsval_cex :
    (process_packet {} {} pZeroTS).map
        (fun r => (r.1.no_TS, r.1.uniDir, r.1.not_tcp, r.1.not_v4or6))
      = some (0, 0, 0, 0) ∧
    (process_packet {} {} pZeroTS).map
        (fun r => (r.1.flows.length, r.1.tsTbl.length, r.2.isSome))
      = some (0, 0, false) ∧
    (process_packet {} {} pZeroTS).map (fun r => printSummary r.1)
      = some ("0 flows, 1 packets, \n") := by
  refine ⟨by decide, by decide, by decide⟩

/-- C4: addTS never overwrites: when the TSKey is already present the stored
entry (and its recorded capture time) is kept and the new one discarded; in
the duplicate-TSval scenario (forward TSval 100 at times 1 and 2, ECR 100 at
time 5) the single emitted RTT is 4, measured from the oldest observation,
whose entry is then consumed (t = -1). -/
theorem c4_addts_keeps_oldest :
    (∀ tbl key e ti, lookupA tbl key = some e → addTS tbl key ti = tbl) ∧
    (runEvents cfgNF s0bidir
        [Event.pkt (fwdPkt 100 1 0), Event.pkt (fwdPkt 100 2 0),
         Event.pkt (revPkt 1 100 5 0)]).map
      (fun r => (r.2.map Emission.rtt,
                 (lookupA r.1.tsTbl ("A:1+B:2+100")).map tsInfo.t))
      = some ([4], some (-1)) := by
  constructor
  · intro tbl key e ti h
    unfold addTS
    rw [h]
  · decide

/-- Witness for the first part of c4_addts_keeps_oldest at a concrete table. -/
theorem c4_addts_keeps_oldest_witness :
    addTS [(("x"), (⟨1, 2, 3⟩ : tsInfo))] ("x") ⟨9, 9, 9⟩
      = [(("x"), (⟨1, 2, 3⟩ : tsInfo))] :=
  c4_addts_keeps_oldest.1 _ _ ⟨1, 2, 3⟩ _ rfl

/-- C1 counterexample: on trace c1evs the pair (FlowKey A:1+B:2, TSval 100)
yields two RTT samples in one run: the consumed entry is removed by the sweep
at reference time 20, recreated by a later forward packet with the same TSval,
and matched a second time. -/
theorem c1_two_samples_cex :
    (runEvents cfgNF s0bidir c1evs).map
        (fun r => (r.2.filter (fun x => x.matchKey = ("A:1+B:2+100"))).length)
      = some 2 := by
  decide

/-- C5 counterexample: on trace c5evs one RTT of 1 has been emitted for flow
B:2+A:1, but after the record is evicted and recreated its min field is back
at the 1e30 sentinel, not at the minimum (1) of the RTTs emitted so far for
that flow; nor is it "+infinity" - it is the finite initializer 1e30. -/
theorem c5_min_reset_cex :
    (runEvents cfgNF s0bidir c5evs).map
        (fun r => ((lookupA r.1.flows ("B:2+A:1")).map flowRec.min,
                   (r.2.filter (fun x => x.flow = ("B:2+A:1"))).map Emission.rtt))
      = some (some (10 ^ 30), [1]) ∧ ((10 : ℚ) ^ 30) ≠ 1 := by
  constructor
  · decide
  · norm_num

/-- C9 (code bug): the trace c9pre runs fine, but the follow-up packet q5
matches the still-live unconsumed entry A:1+B:2+100 after the A:1+B:2 flow
record has been evicted, so the unguarded flows.at at line 336 throws
(modelled as none): the reverse FlowKey is not in the flow table. -/
theorem c9_reverse_lookup_throws :
    (runEvents cfg9 {} c9pre).isSome = true ∧ runEvents cfg9 {} c9evs = none := by
  constructor <;> decide

theorem tsLit1 : toString (1 : Nat) = "1" := rfl

theorem tsLit2 : toString (2 : Nat) = "2" := rfl

theorem c2_step1 (V : Nat) (a : Int) (b : Nat) (hV : V ≠ 0) :
    process_packet cfgNF s0bidir (fwdPkt V a b) = some (c2S1 V a b, none) := by
  have hk1 : ("A:1+B:2+" ++ toString V) ≠ "B:2+A:1+1" := by
    simpa using strNe_left ("A:1+B:2+") ("B:2+A:1+") (toString V) ("1")
      (by decide) (by decide)
  simp [process_packet, procUsable, procFlow, procBidir, clockUpdate, netStrs, dstV4,
    getTStm, addTS, lookupA, updateA, fwdPkt, s0bidir, flowsAB, cfgNF, hV, hk1,
    tsLit1, tsLit2, c2S1, normT]

theorem c2_step2 (V : Nat) (a : Int) (b : Nat) (c : Int) (d : Nat) (hV : V ≠ 0)
    (hT : 0 < normT a b) (hB : normT c d - normT a b < 10 ^ 30) :
    process_packet cfgNF (c2S1 V a b) (revPkt 1 V c d)
      = some (c2S2 V a b c d, some (c2em V a b c d)) := by
  have hk0 : ("A:1+B:2+" ++ toString V) ≠ "B:2+A:1+1" := by
    simpa using strNe_left ("A:1+B:2+") ("B:2+A:1+") (toString V) ("1")
      (by decide) (by decide)
  have hk1 : ("B:2+A:1+1" : String) ≠ ("A:1+B:2+" ++ toString V) := hk0.symm
  have hT' : (0 : ℚ) < (a : ℚ) + (b : ℚ) / 1000000 := by simpa [normT] using hT
  have hB' : (c : ℚ) + (d : ℚ) / 1000000 - ((a : ℚ) + (b : ℚ) / 1000000)
      < 10 ^ 30 := by simpa [normT] using hB
  simp [process_packet, procUsable, procFlow, procBidir, clockUpdate, netStrs, dstV4,
    getTStm, addTS, lookupA, updateA, lookupA_updateA, revPkt, cfgNF, hV, hk0, hk1,
    hT', hB', tsLit1, tsLit2, c2S1, c2S2, c2em, normT]

theorem c2_step3 (V : Nat) (a : Int) (b : Nat) (c : Int) (d : Nat) (g : Int) (u : Nat)
    (hV : V ≠ 0) (hT : 0 < normT a b) :
    process_packet cfgNF (c2S2 V a b c d) (revPkt 2 V g u)
      = some (c2S3 V a b c d g u, none) := by
  have hk0 : ("A:1+B:2+" ++ toString V) ≠ "B:2+A:1+2" := by
    simpa using strNe_left ("A:1+B:2+") ("B:2+A:1+") (toString V) ("2")
      (by decide) (by decide)
  have hk1 : ("B:2+A:1+1" : String) ≠ ("A:1+B:2+" ++ toString V) := by
    simpa using (strNe_left ("A:1+B:2+") ("B:2+A:1+") (toString V) ("1")
      (by decide) (by decide)).symm
  have hk2 : ("B:2+A:1+2" : String) ≠ ("A:1+B:2+" ++ toString V) := hk0.symm
  have hTn : ¬((a : ℚ) < -((b : ℚ) / 1000000)) := by
    have hT2 : (0 : ℚ) < (a : ℚ) + (b : ℚ) / 1000000 := by simpa [normT] using hT
    rw [not_lt]
    linarith
  simp [process_packet, procUsable, procFlow, procBidir, clockUpdate, netStrs, dstV4,
    getTStm, addTS, lookupA, updateA, revPkt, cfgNF, hV, hk0, hk1, hk2, hTn,
    tsLit1, tsLit2, c2S2, c2S3, normT]
  norm_num

/-- C2: for any TSval V, a forward A-to-B packet with TSval V captured at
normalized time T = normT a b > 0 followed by a reverse packet echoing V at
normalized time normT c d (both flows already bi-directional) yields exactly
one RTT sample, equal to normT c d - T (the reverse packet's capture time
minus the stored entry time); a further reverse packet echoing V at any later
time finds the entry's time negated to -T and emits no additional sample. -/
theorem c2_roundtrip (V : Nat) (a : Int) (b : Nat) (c : Int) (d : Nat) (g : Int) (u : Nat)
    (hV : V ≠ 0) (hT : 0 < normT a b) (hB : normT c d - normT a b < 10 ^ 30) :
    (runEvents cfgNF s0bidir
        [Event.pkt (fwdPkt V a b), Event.pkt (revPkt 1 V c d),
         Event.pkt (revPkt 2 V g u)]).map
      (fun r => (r.2.map Emission.rtt,
                 (lookupA r.1.tsTbl (("A:1+B:2+") ++ toString V)).map tsInfo.t))
      = some ([normT c d - normT a b], some (-(normT a b))) := by
  have e1 := c2_step1 V a b hV
  have e2 := c2_step2 V a b c d hV hT hB
  have e3 := c2_step3 V a b c d g u hV hT
  have hk1 : ("B:2+A:1+1" : String) ≠ ("A:1+B:2+" ++ toString V) := by
    simpa using (strNe_left ("A:1+B:2+") ("B:2+A:1+") (toString V) ("1")
      (by decide) (by decide)).symm
  have hk2 : ("B:2+A:1+2" : String) ≠ ("A:1+B:2+" ++ toString V) := by
    simpa using (strNe_left ("A:1+B:2+") ("B:2+A:1+") (toString V) ("2")
      (by decide) (by decide)).symm
  simp only [runEvents, e1, e2, e3]
  simp [c2S3, c2em, lookupA, hk1, hk2, normT]

/-- Witness for c2_roundtrip: V = 100, forward at time 1, echo at time 3
(RTT 2), duplicate echo at time 4 yields no further sample. -/
theorem c2_roundtrip_witness :
    (runEvents cfgNF s0bidir
        [Event.pkt (fwdPkt 100 1 0), Event.pkt (revPkt 1 100 3 0),
         Event.pkt (revPkt 2 100 4 0)]).map
      (fun r => (r.2.map Emission.rtt,
                 (lookupA r.1.tsTbl (("A:1+B:2+") ++ toString 100)).map tsInfo.t))
      = some ([normT 3 0 - normT 1 0], some (-(normT 1 0))) :=
  c2_roundtrip 100 1 0 3 0 4 0 (by decide) (by norm_num [normT]) (by norm_num [normT])

/-- C1 amended: while a consumed TSEntry (t < 0) remains in the TSval table,
no packet-only continuation of the run emits another RTT for that TSKey, and
the entry stays in place consumed; the original claim's stronger guarantee
fails once a reaper sweep removes the consumed entry and a forward packet
recreates it (see the counterexample). -/
theorem c1_consumed_blocks (cfg : Config) (evs : List Event) :
    ∀ (s : PState) (K : String) (e : tsInfo) (s' : PState) (ems : List Emission),
      (∀ ev ∈ evs, ∃ p, ev = Event.pkt p) →
      lookupA s.tsTbl K = some e → e.t < 0 →
      runEvents cfg s evs = some (s', ems) →
      lookupA s'.tsTbl K = some e ∧ ∀ x ∈ ems, x.matchKey ≠ K := by
  induction evs with
  | nil =>
    intro s K e s' ems _ hK ht hrun
    simp only [runEvents, Option.some.injEq, Prod.mk.injEq] at hrun
    obtain ⟨h1, h2⟩ := hrun
    subst h1
    subst h2
    exact ⟨hK, by simp⟩
  | cons ev rest ih =>
    intro s K e s' ems hp hK ht hrun
    obtain ⟨p, rfl⟩ := hp ev (List.mem_cons_self ev rest)
    simp only [runEvents] at hrun
    split at hrun
    · exact Option.noConfusion hrun
    rename_i s1 em heq
    split at hrun
    · exact Option.noConfusion hrun
    rename_i s2 ems2 heq2
    simp only [Option.some.injEq, Prod.mk.injEq] at hrun
    obtain ⟨h1, h2⟩ := hrun
    subst h1
    subst h2
    obtain ⟨hK1, hem1⟩ := step_consumed cfg s p s1 em K e heq hK ht
    obtain ⟨hK2, hem2⟩ :=
      ih s1 K e s2 ems2 (fun x hx => hp x (List.mem_cons_of_mem _ hx)) hK1 ht heq2
    refine ⟨hK2, ?_⟩
    intro x hx
    rcases List.mem_append.mp hx with hx | hx
    · cases em with
      | none => simp at hx
      | some y =>
        simp only [Option.toList_some, List.mem_singleton] at hx
        subst hx
        exact hem1 x rfl
    · exact hem2 x hx

/-- Witness for c1_consumed_blocks: one reverse packet with ECR 100 processed
on a state whose entry A:1+B:2+100 is consumed (t = -1) leaves the entry in
place and emits nothing. -/
theorem c1_consumed_blocks_witness :
    lookupA sConsumedWafter.tsTbl ("A:1+B:2+100") = some (⟨-1, 60, 0⟩ : tsInfo) ∧
    ∀ x ∈ ([] : List Emission), x.matchKey ≠ ("A:1+B:2+100") :=
  c1_consumed_blocks cfgNF [Event.pkt (revPkt 1 100 2 0)] sConsumedW ("A:1+B:2+100")
    ⟨-1, 60, 0⟩ sConsumedWafter []
    (by intro ev hev
        rw [List.mem_singleton] at hev
        exact ⟨_, hev⟩)
    (by decide) (by decide) (by decide)

/-- C3 amended: the flow table never holds more than maxFlows + 1 records
(flowCnt = table size and flowCnt <= maxFlows + 1 are preserved by every
step), and a packet whose FlowKey is new is dropped exactly when
flowCnt > maxFlows - that is, only once the table already holds
maxFlows + 1 flows: then neither a flow record nor a TSval entry nor any
counter state is created, only the packet count and capture clock move. -/
theorem c3_capacity_amended :
    (∀ cfg s p s' em, process_packet cfg s p = some (s', em) →
      s.flowCnt = (s.flows.length : Int) → s.flowCnt ≤ cfg.maxFlows + 1 →
      s'.flowCnt = (s'.flows.length : Int) ∧ s'.flowCnt ≤ cfg.maxFlows + 1) ∧
    (∀ cfg s p ipsstr ipdstr, p.isTCP = true → p.hasTSopt = true →
      ¬(p.tsval = 0 ∨ (p.tsecr = 0 ∧ p.flagsSYN = false)) →
      netStrs p.net = some (ipsstr, ipdstr) →
      lookupA s.flows
        (ipsstr ++ ":" ++ toString p.sport ++ "+" ++ (ipdstr ++ ":" ++ toString p.dport))
        = none →
      s.flowCnt > cfg.maxFlows →
      process_packet cfg s p
          = some (clockUpdate { s with pktCnt := s.pktCnt + 1 } p, none) ∧
        (clockUpdate { s with pktCnt := s.pktCnt + 1 } p).flows = s.flows ∧
        (clockUpdate { s with pktCnt := s.pktCnt + 1 } p).tsTbl = s.tsTbl ∧
        (clockUpdate { s with pktCnt := s.pktCnt + 1 } p).flowCnt = s.flowCnt ∧
        (clockUpdate { s with pktCnt := s.pktCnt + 1 } p).uniDir = s.uniDir) := by
  constructor
  · intro cfg s p s' em h hlen hb
    rcases step_flows_shape cfg s p s' em h with ⟨h1, h2⟩ | ⟨fstr, hn, hc, h1, h2⟩
    · have : s'.flows.length = s.flows.length := by
        rw [← List.length_map s'.flows Prod.fst, h1, List.length_map]
      rw [h2, this, ← hlen]
      exact ⟨rfl, hb⟩
    · have : s'.flows.length = s.flows.length + 1 := by
        rw [← List.length_map s'.flows Prod.fst, h1, List.length_cons, List.length_map]
      rw [h2, this, hlen]
      push_cast
      omega
  · intro cfg s p ipsstr ipdstr h1 h2 h3 hnet hflow hcap
    have n1 : ¬(p.isTCP = false) := by simp [h1]
    have n2 : ¬(p.hasTSopt = false) := by simp [h2]
    refine ⟨?_, by simp, by simp, by simp, by simp⟩
    simp only [process_packet]
    rw [if_neg n1, if_neg n2, if_neg h3, hnet]
    have hfs' : lookupA (clockUpdate { s with pktCnt := s.pktCnt + 1 } p).flows
        (ipsstr ++ ":" ++ toString p.sport ++ "+" ++ (ipdstr ++ ":" ++ toString p.dport))
          = none := by simpa using hflow
    have hcap' : (clockUpdate { s with pktCnt := s.pktCnt + 1 } p).flowCnt > cfg.maxFlows := by
      simpa using hcap
    simp only [procUsable, hfs', if_pos hcap']

/-- Witness for c3_capacity_amended: a step from a one-flow state preserves
the size bookkeeping, and a fresh-key packet is dropped with no state change
when flowCnt exceeds maxFlows (maxFlows = 0, two flows held). -/
theorem c3_capacity_amended_witness :
    (sUniWafter.flowCnt = (sUniWafter.flows.length : Int) ∧
      sUniWafter.flowCnt ≤ ({} : Config).maxFlows + 1) ∧
    process_packet ({ maxFlows := 0 } : Config)
        ({ flows := flowsAB, flowCnt := 2, offTm := 0 } : PState) pUniW
      = some (clockUpdate { ({ flows := flowsAB, flowCnt := 2, offTm := 0 } : PState) with
          pktCnt := 1 } pUniW, none) := by
  constructor
  · exact c3_capacity_amended.1 {} sUniW ({ isTCP := false } : Packet) sUniWafter none
      (by decide) rfl (by decide)
  · exact (c3_capacity_amended.2 ({ maxFlows := 0 } : Config) _ pUniW ("C") ("D")
      rfl rfl (by decide) rfl (by decide) (by decide)).1

/-- C3 counterexample: with the compiled-in maxFlows = 10000 and a table
already holding exactly 10000 flows, a packet with a fresh FlowKey is NOT
dropped: the strict check flowCnt > maxFlows at line 291 lets it through and
the table grows to 10001 records, so the table is not capped at max_flows. -/
theorem c3_cap_cex :
    ({} : Config).maxFlows = 10000 ∧
    (process_packet {} ({ flows := mkFlows 10000, flowCnt := 10000, offTm := 0 } : PState)
        pUniW).map (fun r => ((r.1.flows.length : Int), r.2.isSome))
      = some (10001, false) := by
  refine ⟨rfl, ?_⟩
  rw [created_unidir {} _ pUniW ("C") ("D") rfl rfl (by decide) rfl
    (lookupA_mkFlows 10000 _ (by decide)) (by decide)
    (lookupA_mkFlows 10000 _ (by decide)) (by decide)]
  simp [updateA_length, mkFlows_length]

/-- C8 amended: the classification rejections for not-TCP, missing timestamp
option, not-v4-or-v6 and uni-directional each increment the corresponding
counter surfaced by printSummary; a packet discarded because its TSval is
zero (or its ECR is zero on a non-SYN packet) increments no rejection
counter: only the packet count moves and the state is otherwise unchanged. -/
theorem c8_rejection_counters :
    (∀ cfg s p, p.isTCP = false →
      process_packet cfg s p
        = some ({ s with pktCnt := s.pktCnt + 1, not_tcp := s.not_tcp + 1 }, none)) ∧
    (∀ cfg s p, p.isTCP = true → p.hasTSopt = false →
      process_packet cfg s p
        = some ({ s with pktCnt := s.pktCnt + 1, no_TS := s.no_TS + 1 }, none)) ∧
    (∀ cfg s p, p.isTCP = true → p.hasTSopt = true →
      (p.tsval = 0 ∨ (p.tsecr = 0 ∧ p.flagsSYN = false)) →
      process_packet cfg s p = some ({ s with pktCnt := s.pktCnt + 1 }, none)) ∧
    (∀ cfg s p, p.isTCP = true → p.hasTSopt = true →
      ¬(p.tsval = 0 ∨ (p.tsecr = 0 ∧ p.flagsSYN = false)) → p.net = NetLayer.other →
      process_packet cfg s p
        = some ({ s with pktCnt := s.pktCnt + 1, not_v4or6 := s.not_v4or6 + 1 }, none)) ∧
    (∀ cfg s p ipsstr ipdstr fr, p.isTCP = true → p.hasTSopt = true →
      ¬(p.tsval = 0 ∨ (p.tsecr = 0 ∧ p.flagsSYN = false)) →
      netStrs p.net = some (ipsstr, ipdstr) →
      lookupA (clockUpdate { s with pktCnt := s.pktCnt + 1 } p).flows
          (ipsstr ++ ":" ++ toString p.sport ++ "+" ++ (ipdstr ++ ":" ++ toString p.dport))
        = some fr →
      fr.revFlow = false →
      process_packet cfg s p
        = some ({ clockUpdate { s with pktCnt := s.pktCnt + 1 } p with
            flows := updateA (fun r =>
                { r with last_tm := (clockUpdate { s with pktCnt := s.pktCnt + 1 } p).capTm })
              (clockUpdate { s with pktCnt := s.pktCnt + 1 } p).flows
              (ipsstr ++ ":" ++ toString p.sport ++ "+" ++ (ipdstr ++ ":" ++ toString p.dport)),
            uniDir := s.uniDir + 1 }, none)) := by
  refine ⟨?_, ?_, ?_, ?_, ?_⟩
  · intro cfg s p h1
    simp [process_packet, h1]
  · intro cfg s p h1 h2
    simp [process_packet, h1, h2]
  · intro cfg s p h1 h2 h3
    have n1 : ¬(p.isTCP = false) := by simp [h1]
    have n2 : ¬(p.hasTSopt = false) := by simp [h2]
    simp only [process_packet]
    rw [if_neg n1, if_neg n2, if_pos h3]
  · intro cfg s p h1 h2 h3 h4
    have n1 : ¬(p.isTCP = false) := by simp [h1]
    have n2 : ¬(p.hasTSopt = false) := by simp [h2]
    simp only [process_packet]
    rw [if_neg n1, if_neg n2, if_neg h3, h4]
    rfl
  · intro cfg s p ipsstr ipdstr fr h1 h2 h3 hnet hflow hrev
    have n1 : ¬(p.isTCP = false) := by simp [h1]
    have n2 : ¬(p.hasTSopt = false) := by simp [h2]
    simp only [process_packet]
    rw [if_neg n1, if_neg n2, if_neg h3, hnet]
    simp only [procUsable, hflow]
    simp only [procFlow, lookupA_updateA, if_pos rfl, hflow, Option.map_some, hrev]
    simp [hrev]

/-- Witness for c8_rejection_counters: a non-TCP packet increments not_tcp, a
packet without the TS option increments no_TS, a zero-TSval packet moves only
pktCnt, a non-IP packet increments not_v4or6, and a uni-directional packet
increments uniDir. -/
theorem c8_rejection_counters_witness :
    process_packet {} {} ({ isTCP := false } : Packet)
      = some ({ pktCnt := 1, not_tcp := 1 }, none) ∧
    process_packet {} {} ({ hasTSopt := false } : Packet)
      = some ({ pktCnt := 1, no_TS := 1 }, none) ∧
    process_packet {} {} pZeroTS = some ({ pktCnt := 1 }, none) ∧
    process_packet {} {} ({ tsval := 3, tsecr := 1 } : Packet)
      = some ({ pktCnt := 1, not_v4or6 := 1 }, none) ∧
    (process_packet {} sUniW pUniW).map (fun r => (r.1.uniDir, r.2.isSome))
      = some (1, false) := by
  refine ⟨?_, ?_, ?_, ?_, ?_⟩
  · exact c8_rejection_counters.1 {} {} _ rfl
  · exact c8_rejection_counters.2.1 {} {} _ rfl rfl
  · exact c8_rejection_counters.2.2.1 {} {} pZeroTS rfl rfl (Or.inl rfl)
  · exact c8_rejection_counters.2.2.2.1 {} {} _ rfl rfl (by decide) rfl
  · have h := c8_rejection_counters.2.2.2.2 {} sUniW pUniW ("C") ("D")
      ({ flowname := "C:7+D:8" } : flowRec) rfl rfl (by decide) rfl (by decide) rfl
    rw [h]
    decide

/-- C5 amended: for every flow record at every point in a run, min equals the
fold of min over the RTTs emitted for that flow since the current record was
created, seeded with the finite sentinel 1e30 that implements "+infinity"
(the MinInv invariant is preserved by every event); consequently min is
monotone non-increasing over the record's lifetime (second conjunct).  The
original claim's "all RTTs emitted so far" fails across record eviction and
recreation (see the counterexample). -/
theorem c5_min_invariant :
    (∀ (cfg : Config) (evs : List Event) (s : PState) (led : String → List ℚ)
        (s' : PState) (led' : String → List ℚ),
      MinInv s led → runLedger cfg s led evs = some (s', led') → MinInv s' led') ∧
    (∀ (cfg : Config) (s : PState) (p : Packet) (s' : PState) (em : Option Emission)
        (f : String) (r r' : flowRec),
      process_packet cfg s p = some (s', em) →
      lookupA s.flows f = some r → lookupA s'.flows f = some r' → r'.min ≤ r.min) := by
  constructor
  · intro cfg evs
    induction evs with
    | nil =>
      intro s led s' led' hInv hrun
      simp only [runLedger, Option.some.injEq, Prod.mk.injEq] at hrun
      obtain ⟨h1, h2⟩ := hrun
      subst h1
      subst h2
      exact hInv
    | cons ev rest ih =>
      intro s led s' led' hInv hrun
      cases ev with
      | pkt p =>
        simp only [runLedger] at hrun
        split at hrun
        · exact Option.noConfusion hrun
        rename_i s1 em heq
        refine ih s1 (ledgerStep s em led) s' led' ⟨?_, ?_⟩ hrun
        · rcases step_flows_shape cfg s p s1 em heq with ⟨h1, h2⟩ | ⟨fstr, hn, hc, h1, h2⟩
          · rw [h1]
            exact hInv.1
          · rw [h1]
            exact List.nodup_cons.mpr ⟨(lookupA_eq_none_iff _ _).mp hn, hInv.1⟩
        · intro f r hr
          have hm := step_min cfg s p s1 em heq f
          rw [hr] at hm
          have hbase : minList (if (lookupA s.flows f).isSome then led f else [])
              = minOr (lookupA s.flows f) := by
            cases hx : lookupA s.flows f with
            | none => simp [minList, minOr]
            | some r0 => simp [minOr, hInv.2 f r0 hx]
          cases em with
          | none =>
            simp only [emAdjust, minOr] at hm
            show r.min = minList (ledgerStep s none led f)
            simp only [ledgerStep]
            rw [hbase]
            exact hm
          | some e =>
            simp only [emAdjust, minOr] at hm
            show r.min = minList (ledgerStep s (some e) led f)
            simp only [ledgerStep]
            by_cases hef : e.flow = f
            · rw [if_pos hef] at hm ⊢
              rw [minList_append, hbase]
              exact hm
            · rw [if_neg hef] at hm ⊢
              rw [hbase]
              exact hm
      | sweep n =>
        simp only [runLedger] at hrun
        refine ih _ _ s' led' ⟨?_, ?_⟩ hrun
        · have hsub : ((cleanUp cfg n s).flows.map Prod.fst).Sublist
              (s.flows.map Prod.fst) := by
            simp only [cleanUp]
            exact (List.filter_sublist _).map _
          exact hInv.1.sublist hsub
        · intro f r hr
          have hmem : (f, r) ∈ (cleanUp cfg n s).flows := mem_of_lookupA _ _ _ hr
          have hmem' : (f, r) ∈ s.flows := by
            simp only [cleanUp] at hmem
            exact List.mem_of_mem_filter hmem
          have hr' : lookupA s.flows f = some r := lookupA_of_mem _ _ _ hInv.1 hmem'
          simp [hr, hInv.2 f r hr']
  · intro cfg s p s' em f r r' h hr hr'
    have hm := step_min cfg s p s' em h f
    rw [hr, hr'] at hm
    cases em with
    | none =>
      simp only [emAdjust, minOr] at hm
      exact le_of_eq hm
    | some e =>
      simp only [emAdjust, minOr] at hm
      by_cases hef : e.flow = f
      · rw [if_pos hef] at hm
        rw [hm]
        exact min_le_left _ _
      · rw [if_neg hef] at hm
        exact le_of_eq hm

/-- Witness for c5_min_invariant: the invariant transported through one
packet step from the empty state. -/
theorem c5_min_invariant_witness :
    MinInv c5WitState (ledgerStep ({} : PState) none (fun _ => [])) := by
  have h1 : process_packet ({} : Config) ({} : PState) pUniW = some (c5WitState, none) := by
    decide
  refine c5_min_invariant.1 {} [Event.pkt pUniW] {} (fun _ => []) c5WitState
    (ledgerStep ({} : PState) none (fun _ => []))
    ⟨by simp, by intro f r hr; simp [lookupA] at hr⟩ ?_
  simp only [runLedger, h1]

end PPing
